import Mathlib

/-!
Verification of the ucall Python JSON-RPC client (src/ucall/client.py)
against its natural-language specification.

The client is embedded shallowly:
  * byte strings (Python `bytes`) become `List Nat`;
  * the stream of values returned by successive `sock.recv(...)` calls
    becomes an explicit list of chunks; once the list is exhausted every
    further `recv` returns the empty chunk, which is exactly what a
    blocking `recv` on a connection closed by the peer does;
  * loops whose termination depends on network input take an explicit
    fuel argument; returning `none` for every fuel value models an
    infinite loop (a hang) of the Python code;
  * Python exceptions become `Except` / explicit error values.
-/

/-- Byte strings (`bytes` in the source) are lists of naturals. -/
abbrev Bytes := List Nat

/-- Code points of a string literal, used to transcribe the templates of
the source. For the ASCII templates each code point is the byte value. -/
def strB (s : String) : Bytes := s.toList.map Char.toNat

/-! ## Raw (TCP) framing — `Client.TCP_TERMINATOR`, `Client._send`,
`Client._receive_all_tcp` -/

/-- Sentinel byte terminating a raw-mode frame (`TCP_TERMINATOR = b'\0'`). -/
def TCP_TERMINATOR : Bytes := [0]

/-- Raw-mode frame writer: `request += self.TCP_TERMINATOR.decode()`
(line 141 of client.py) appends the single sentinel byte to the body. -/
def rawFrame (body : Bytes) : Bytes := body ++ TCP_TERMINATOR

/-- The loop guard `body.endswith(self.TCP_TERMINATOR)` of
`_receive_all_tcp`. -/
def endsWithTerm (body : Bytes) : Bool := body.getLast? == some 0

/-- `Client._receive_all_tcp`:
`body = b''; while not body.endswith(TCP_TERMINATOR): body += sock.recv(n)`;
`return body[:-1]`. `chunks` is the sequence of values successive `recv`
calls produce; after it is exhausted `recv` keeps returning `b''`
(peer closed). `none` means the loop has not finished within `fuel`
iterations; a result of `none` for every fuel value is a hang. -/
def recvAllTcp (chunks : List Bytes) (fuel : Nat) (body : Bytes) : Option Bytes :=
  if endsWithTerm body then some body.dropLast
  else
    match fuel with
    | 0 => none
    | f + 1 => recvAllTcp chunks.tail f (body ++ chunks.headD [])

lemma endsWithTerm_append_zero (body : Bytes) :
    endsWithTerm (body ++ [0]) = true := by
  simp [endsWithTerm]

lemma endsWithTerm_eq_true_iff (body : Bytes) :
    endsWithTerm body = true ↔ body.getLast? = some 0 := by
  simp [endsWithTerm]

/-- A body accumulated so far that is a proper prefix of `body ++ [0]`
with `0 ∉ body` cannot already end in the sentinel. -/
lemma not_endsWithTerm_of_prefix (body acc rest : Bytes)
    (hjoin : acc ++ rest = body ++ [0]) (hrest : rest ≠ [])
    (hbody : 0 ∉ body) : endsWithTerm acc = false := by
  cases hcase : endsWithTerm acc with
  | false => rfl
  | true =>
    exfalso
    have hterm : acc.getLast? = some 0 := (endsWithTerm_eq_true_iff acc).mp hcase
    have hlen : acc.length ≤ body.length := by
      have h1 : acc.length + rest.length = body.length + 1 := by
        have := congrArg List.length hjoin
        simpa using this
      have h2 : 1 ≤ rest.length := by
        cases rest with
        | nil => exact absurd rfl hrest
        | cons a t => simp
      omega
    have hacc : acc = (body ++ [0]).take acc.length := by
      have := List.take_left acc rest
      rw [hjoin] at this
      exact this.symm
    have hpre : acc = body.take acc.length :=
      hacc.trans (List.take_append_of_le_length hlen)
    have hzero : (0 : Nat) ∈ acc := by
      rcases List.mem_getLast?_eq_getLast (show (0 : Nat) ∈ acc.getLast? from hterm)
        with ⟨hne, heq⟩
      rw [heq]
      exact List.getLast_mem hne
    have : (0 : Nat) ∈ body := by
      have hsub : acc ⊆ body := by
        rw [hpre]
        exact List.take_subset _ _
      exact hsub hzero
    exact hbody this

/-- Main invariant for the raw-frame reader: if the bytes still to be
received, appended to what is already accumulated, form `body ++ [0]`,
every pending chunk is nonempty, and the body holds no sentinel byte,
then the loop terminates with exactly `body`. -/
lemma recvAllTcp_correct (chunks : List Bytes) :
    ∀ (acc body : Bytes) (fuel : Nat),
      acc ++ chunks.flatten = body ++ [0] →
      (∀ c ∈ chunks, c ≠ []) →
      0 ∉ body →
      chunks.length ≤ fuel →
      recvAllTcp chunks fuel acc = some body := by
  induction chunks with
  | nil =>
    intro acc body fuel hjoin _ _ _
    simp at hjoin
    subst hjoin
    rw [recvAllTcp.eq_def, endsWithTerm_append_zero]
    simp
  | cons c rest ih =>
    intro acc body fuel hjoin hne hbody hfuel
    have hc : c ≠ [] := hne c (by simp)
    have hsplit : acc ++ (c ++ rest.flatten) = body ++ [0] := by
      simpa using hjoin
    have hrest_ne : c ++ rest.flatten ≠ [] := by
      intro h
      rcases List.append_eq_nil.mp h with ⟨h1, _⟩
      exact hc h1
    have hnotend : endsWithTerm acc = false :=
      not_endsWithTerm_of_prefix body acc (c ++ rest.flatten) hsplit hrest_ne hbody
    match fuel with
    | 0 => simp at hfuel
    | f + 1 =>
      rw [recvAllTcp.eq_def, hnotend]
      simp only [Bool.false_eq_true, if_false, List.tail_cons, List.headD_cons]
      apply ih (acc ++ c) body f
      · rw [List.append_assoc]
        exact hsplit
      · intro x hx; exact hne x (by simp [hx])
      · exact hbody
      · simp at hfuel; omega

/-- C2: for every body that does not contain the byte 0x00, appending the
single sentinel byte 0x00 (raw/TCP mode framing, `_send` line 141) and then
parsing with the raw frame reader (`_receive_all_tcp`) returns exactly the
original body bytes, for any way the framed bytes arrive as nonempty
`recv` chunks. -/
theorem tcp_frame_roundtrip (body : Bytes) (chunks : List Bytes)
    (hjoin : chunks.flatten = rawFrame body)
    (hne : ∀ c ∈ chunks, c ≠ [])
    (hbody : 0 ∉ body) :
    recvAllTcp chunks chunks.length [] = some body := by
  apply recvAllTcp_correct chunks [] body chunks.length
  · simpa [rawFrame, TCP_TERMINATOR] using hjoin
  · exact hne
  · exact hbody
  · exact Nat.le_refl _

/-- Witness for C2 at a concrete input: the body [104, 105] framed as
[104, 105, 0], delivered in two chunks, is recovered exactly. -/
theorem tcp_frame_roundtrip_witness :
    recvAllTcp [[104], [105, 0]] 2 [] = some [104, 105] := by
  have h := tcp_frame_roundtrip [104, 105] [[104], [105, 0]]
    (by decide) (by decide) (by decide)
  simpa using h

/-! ## HTTP framing — `Client.http_template`, `Client._send`,
`Client._receive_all_http` -/

/-- The header/body separator `b'\r\n\r\n'`. -/
def sepBytes : Bytes := [13, 10, 13, 10]

/-- Auxiliary: prepend a byte to the first component of the result of a
split, as Python's `bytes.split` keeps leading bytes in the head part. -/
def consFst (a : Nat) : Option (Bytes × Bytes) → Option (Bytes × Bytes)
  | none => none
  | some (h, b) => some (a :: h, b)

/-- `header.split(b'\r\n\r\n', 1)`: split at the first occurrence of the
separator into the part before it and the part after it; `none` when the
separator does not occur (in which case the two-element unpacking in the
source raises `ValueError`). -/
def splitOnSep : Bytes → Option (Bytes × Bytes)
  | [] => none
  | a :: rest =>
    if sepBytes.isPrefixOf (a :: rest) then some ([], rest.drop 3)
    else consFst a (splitOnSep rest)

/-- `bytes.splitlines` over `\r\n`, `\r` and `\n`, accumulator style:
a `\r` swallows one directly following `\n`. -/
def splitLinesAux (l : Bytes) (acc : Bytes) : List Bytes :=
  match l with
  | [] => if acc = [] then [] else [acc.reverse]
  | c :: t =>
    if c = 13 then
      acc.reverse :: splitLinesAux (if t.headD 99 = 10 then t.tail else t) []
    else if c = 10 then acc.reverse :: splitLinesAux t []
    else splitLinesAux t (c :: acc)
termination_by l.length
decreasing_by
  · split
    · simp [List.length_tail]
      omega
    · simp
  · simp
  · simp

/-- `header.splitlines()` used by `_receive_all_http` to scan header lines. -/
def splitLines (l : Bytes) : List Bytes := splitLinesAux l []

/-- The line prefix `pref = b'Content-Length:'` of `_receive_all_http`. -/
def clPref : Bytes := strB "Content-Length:"

/-- The header scan of `_receive_all_http`: the first line that starts
with `Content-Length:` yields the bytes after the prefix (`line[len(pref):]`);
the loop breaks there. `none` when no line matches, in which case
`content_len` keeps its initial value `-1`. -/
def findCL : List Bytes → Option Bytes
  | [] => none
  | line :: rest =>
    if clPref.isPrefixOf line then some (line.drop clPref.length)
    else findCL rest

/-- Python ASCII whitespace for `bytes.strip()`. -/
def isWS (c : Nat) : Bool := c = 32 || c = 9 || c = 10 || c = 13 || c = 11 || c = 12

/-- `bytes.strip()`: remove leading and trailing ASCII whitespace. -/
def stripB (l : Bytes) : Bytes := ((l.dropWhile isWS).reverse.dropWhile isWS).reverse

/-- Decimal digit run parser backing the model of Python `int()`. -/
def parseDigits (l : Bytes) : Option Nat :=
  if l = [] then none
  else if l.all (fun c => 48 ≤ c && c ≤ 57) then
    some (l.foldl (fun a c => a * 10 + (c - 48)) 0)
  else none

/-- Optional sign, then a nonempty run of decimal digits. -/
def parseSigned : Bytes → Option Int
  | [] => none
  | c :: r =>
    if c = 43 then (parseDigits r).map Int.ofNat
    else if c = 45 then (parseDigits r).map (fun n : Nat => -(n : Int))
    else (parseDigits (c :: r)).map Int.ofNat

/-- Python `int(b)` on a byte string: strip whitespace, optional sign,
then a nonempty run of decimal digits; `none` models the `ValueError`
that `int()` raises otherwise. -/
def parsePyInt (b : Bytes) : Option Int := parseSigned (stripB b)

/-- Digits of a natural in base 10, most significant first, fueled so
that the definition stays kernel-computable; fuel `n` always suffices. -/
def decDigitsAux (fuel n : Nat) : Bytes :=
  match fuel with
  | 0 => []
  | f + 1 => if n = 0 then [] else decDigitsAux f (n / 10) ++ [48 + n % 10]

/-- Digits of a positive natural in base 10, most significant first. -/
def decDigits (n : Nat) : Bytes := decDigitsAux n n

/-- Decimal representation `'%i' % n` for a nonnegative length. -/
def decimalCodes (n : Nat) : Bytes :=
  if n = 0 then [48] else decDigits n

/-- Lines of `http_template` (client.py line 95), split at its `\r\n`
separators, with the `Host:` value and the `Content-Length:` value as
parameters. Joining them with `\r\n` and appending the final blank line
reproduces the template text exactly (see the sanity example below). -/
def httpTemplateLines (host clenField : Bytes) : List Bytes :=
  [ strB "POST / HTTP/1.1",
    strB "Host: " ++ host,
    strB "User-Agent: py-ucall",
    strB "Accept: */*",
    strB "Connection: keep-alive",
    strB "Content-Length: " ++ clenField,
    strB "Content-Type: application/json" ]

/-- Join line contents with `\r\n` separators. -/
def joinCRLF : List Bytes → Bytes
  | [] => []
  | [l] => l
  | l :: l2 :: rest => l ++ 13 :: 10 :: joinCRLF (l2 :: rest)

/-- The full header block `http_template % n`: the header lines joined by
`\r\n`, then the terminating blank line `\r\n\r\n`. -/
def httpHeaderBlock (host : Bytes) (n : Nat) : Bytes :=
  joinCRLF (httpTemplateLines host (decimalCodes n)) ++ sepBytes

/-- HTTP-mode frame writer (`_send`, lines 138-139):
`request = self.http_template % (len(request)) + request`. -/
def httpFrame (host body : Bytes) : Bytes :=
  httpHeaderBlock host body.length ++ body

/-- Sanity: the flat template with its default host and a sample length
equals the byte transcription of `http_template` from the source. -/
example : httpFrame (strB "127.0.0.1:8545") (strB "hi") =
    strB "POST / HTTP/1.1\r\nHost: 127.0.0.1:8545\r\nUser-Agent: py-ucall\r\nAccept: */*\r\nConnection: keep-alive\r\nContent-Length: 2\r\nContent-Type: application/json\r\n\r\nhi" := by
  decide

/-- Python exceptions that `_receive_all_http` can raise. -/
inductive PyErr
  | valueError
  deriving DecidableEq, Repr

/-- The header-accumulation loop of `_receive_all_http`:
`while b'\r\n\r\n' not in header: chunk = sock.recv(1024); if not chunk:
break; header += chunk`. Returns the accumulated header bytes and the
chunks not yet consumed. An exhausted chunk list behaves as `recv`
returning `b''`. -/
def readHeader (chunks : List Bytes) (acc : Bytes) : Bytes × List Bytes :=
  if (splitOnSep acc).isSome then (acc, chunks)
  else
    match chunks with
    | [] => (acc, [])
    | c :: rest => if c = [] then (acc, rest) else readHeader rest (acc ++ c)

/-- The body loop of `_receive_all_http`:
`content_len -= len(body); while content_len != 0: chunk = sock.recv(n);
body += chunk; content_len -= len(chunk)`. `none` for every fuel value
means the loop never exits (`content_len` never reaches exactly 0). -/
def bodyLoop (fuel : Nat) (chunks : List Bytes) (body : Bytes) (clen : Int) : Option Bytes :=
  if clen = 0 then some body
  else
    match fuel with
    | 0 => none
    | f + 1 => bodyLoop f chunks.tail (body ++ chunks.headD []) (clen - (chunks.headD []).length)

/-- `Client._receive_all_http` (lines 146-171): accumulate the header,
split at the first `\r\n\r\n` (a missing separator makes the two-element
unpacking raise `ValueError`), scan for a `Content-Length:` line
(`content_len` stays -1 when absent; `int()` raises `ValueError` when its
value is unparseable), then read until `content_len` is exactly zero. -/
def recvAllHttp (chunks : List Bytes) (fuel : Nat) : Option (Except PyErr Bytes) :=
  match splitOnSep (readHeader chunks []).1 with
  | none => some (.error .valueError)
  | some (header, body0) =>
    match findCL (splitLines header) with
    | some v =>
      match parsePyInt v with
      | none => some (.error .valueError)
      | some n =>
        (bodyLoop fuel (readHeader chunks []).2 body0 (n - body0.length)).map Except.ok
    | none =>
      (bodyLoop fuel (readHeader chunks []).2 body0 (-1 - (body0.length : Int))).map Except.ok

/-- The Content-Length value of a written frame, extracted exactly the
way the reader extracts it: split at the first separator, scan the header
lines, parse the value with Python `int` semantics. -/
def contentLengthOf (frame : Bytes) : Option Int :=
  match splitOnSep frame with
  | none => none
  | some (header, _) =>
    match findCL (splitLines header) with
    | none => none
    | some v => parsePyInt v

/-! ### Lemmas about the separator split -/

/-- A line is safe when it holds neither CR nor LF; every real header
line of the template is safe. -/
abbrev safeLine (l : Bytes) : Prop := ∀ c ∈ l, c ≠ 13 ∧ c ≠ 10

lemma consFst_some (a : Nat) (h b : Bytes) :
    consFst a (some (h, b)) = some (a :: h, b) := rfl

lemma splitOnSep_cons_ne (a : Nat) (l : Bytes) (ha : a ≠ 13) :
    splitOnSep (a :: l) = consFst a (splitOnSep l) := by
  rw [splitOnSep]
  have : sepBytes.isPrefixOf (a :: l) = false := by
    simp [sepBytes, List.isPrefixOf]
    intro h
    exact absurd h.symm ha
  rw [this]
  simp

lemma splitOnSep_safe_append (m l : Bytes) (hm : ∀ c ∈ m, c ≠ 13) :
    splitOnSep (m ++ l) = m.foldr consFst (splitOnSep l) := by
  induction m with
  | nil => simp
  | cons a t ih =>
    have ha : a ≠ 13 := (hm a (by simp))
    rw [List.cons_append, splitOnSep_cons_ne a _ ha, ih]
    · rfl
    · intro c hc; exact hm c (by simp [hc])

lemma foldr_consFst_some (m h b : Bytes) :
    m.foldr consFst (some (h, b)) = some (m ++ h, b) := by
  induction m with
  | nil => rfl
  | cons a t ih => simp [List.foldr_cons, ih, consFst_some]

lemma splitOnSep_at_sep (b : Bytes) :
    splitOnSep (13 :: 10 :: 13 :: 10 :: b) = some ([], b) := by
  rw [splitOnSep]
  have : sepBytes.isPrefixOf (13 :: 10 :: 13 :: 10 :: b) = true := by
    simp [sepBytes, List.isPrefixOf]
  rw [this]
  simp

lemma splitOnSep_crlf_cons (c : Nat) (l : Bytes) (hc : c ≠ 13) :
    splitOnSep (13 :: 10 :: c :: l) =
      consFst 13 (consFst 10 (splitOnSep (c :: l))) := by
  rw [splitOnSep]
  have : sepBytes.isPrefixOf (13 :: 10 :: c :: l) = false := by
    simp [sepBytes, List.isPrefixOf]
    intro h
    exact absurd h.symm hc
  rw [this]
  simp only [Bool.false_eq_true, if_false]
  rw [splitOnSep_cons_ne 10 (c :: l) (by omega)]

/-- Unfold `joinCRLF` on a list with at least two lines. -/
lemma joinCRLF_cons_cons (l l2 : Bytes) (rest : List Bytes) :
    joinCRLF (l :: l2 :: rest) = l ++ 13 :: 10 :: joinCRLF (l2 :: rest) := rfl

/-- Central lemma: a header made of safe nonempty lines joined by CRLF,
then the blank-line separator, then the body, splits at exactly the
separator that terminates the header — no earlier `\r\n\r\n` occurs. -/
lemma splitOnSep_header (lines : List Bytes) (b : Bytes) :
    lines ≠ [] → (∀ l ∈ lines, safeLine l) → (∀ l ∈ lines, l ≠ []) →
    splitOnSep (joinCRLF lines ++ 13 :: 10 :: 13 :: 10 :: b) =
      some (joinCRLF lines, b) := by
  induction lines with
  | nil => intro h; exact absurd rfl h
  | cons l rest ih =>
    intro _ hsafe hne
    have hsl : safeLine l := hsafe l (by simp)
    have hl13 : ∀ c ∈ l, c ≠ 13 := fun c hc => (hsl c hc).1
    cases rest with
    | nil =>
      show splitOnSep (joinCRLF [l] ++ _) = _
      have : joinCRLF [l] = l := rfl
      rw [this, splitOnSep_safe_append l _ hl13, splitOnSep_at_sep,
        foldr_consFst_some]
      simp
    | cons l2 rest2 =>
      have hl2ne : l2 ≠ [] := hne l2 (by simp)
      have hl2safe : safeLine l2 := hsafe l2 (by simp)
      have hrec := ih (by simp) (fun x hx => hsafe x (by simp [hx]))
        (fun x hx => hne x (by simp [hx]))
      obtain ⟨c, l2', rfl⟩ : ∃ c l2', l2 = c :: l2' := by
        cases l2 with
        | nil => exact absurd rfl hl2ne
        | cons c t => exact ⟨c, t, rfl⟩
      have hc13 : c ≠ 13 := (hl2safe c (by simp)).1
      obtain ⟨tl, hJ⟩ : ∃ tl, joinCRLF ((c :: l2') :: rest2) = c :: tl := by
        cases rest2 with
        | nil => exact ⟨l2', rfl⟩
        | cons l3 rest3 => exact ⟨l2' ++ 13 :: 10 :: joinCRLF (l3 :: rest3), rfl⟩
      rw [joinCRLF_cons_cons]
      have hassoc : (l ++ 13 :: 10 :: joinCRLF ((c :: l2') :: rest2)) ++
          13 :: 10 :: 13 :: 10 :: b =
          l ++ 13 :: 10 ::
            (joinCRLF ((c :: l2') :: rest2) ++ 13 :: 10 :: 13 :: 10 :: b) := by
        simp
      rw [hassoc, splitOnSep_safe_append l _ hl13]
      have hJS : joinCRLF ((c :: l2') :: rest2) ++ 13 :: 10 :: 13 :: 10 :: b =
          c :: (tl ++ 13 :: 10 :: 13 :: 10 :: b) := by
        rw [hJ]; rfl
      rw [hJS, splitOnSep_crlf_cons c _ hc13, ← hJS, hrec,
        consFst_some, consFst_some, foldr_consFst_some]

/-! ### Lemmas about header-line scanning and the Content-Length value -/

lemma splitLinesAux_cons_safe (c : Nat) (t acc : Bytes)
    (h13 : c ≠ 13) (h10 : c ≠ 10) :
    splitLinesAux (c :: t) acc = splitLinesAux t (c :: acc) := by
  rw [splitLinesAux.eq_def]
  simp [h13, h10]

lemma splitLinesAux_crlf (t2 acc : Bytes) :
    splitLinesAux (13 :: 10 :: t2) acc = acc.reverse :: splitLinesAux t2 [] := by
  rw [splitLinesAux.eq_def]
  simp

lemma splitLinesAux_mid (l : Bytes) (hl : safeLine l) :
    ∀ (rest acc : Bytes),
      splitLinesAux (l ++ 13 :: 10 :: rest) acc =
        (acc.reverse ++ l) :: splitLinesAux rest [] := by
  induction l with
  | nil =>
    intro rest acc
    simpa using splitLinesAux_crlf rest acc
  | cons c t ih =>
    intro rest acc
    have hc := hl c (by simp)
    rw [List.cons_append, splitLinesAux_cons_safe c _ acc hc.1 hc.2,
      ih (fun x hx => hl x (by simp [hx]))]
    simp

lemma splitLinesAux_last (l : Bytes) (hl : safeLine l) (hne : l ≠ []) :
    ∀ acc : Bytes, splitLinesAux l acc = [acc.reverse ++ l] := by
  induction l with
  | nil => exact absurd rfl hne
  | cons c t ih =>
    intro acc
    have hc := hl c (by simp)
    rw [splitLinesAux_cons_safe c _ acc hc.1 hc.2]
    cases t with
    | nil =>
      rw [splitLinesAux.eq_def]
      simp
    | cons d t2 =>
      rw [ih (fun x hx => hl x (by simp [hx])) (by simp)]
      simp

/-- Splitting the CRLF-joined safe nonempty lines back into lines
recovers them. -/
lemma splitLines_joinCRLF (lines : List Bytes) :
    lines ≠ [] → (∀ l ∈ lines, safeLine l) → (∀ l ∈ lines, l ≠ []) →
    splitLines (joinCRLF lines) = lines := by
  induction lines with
  | nil => intro h; exact absurd rfl h
  | cons l rest ih =>
    intro _ hsafe hne
    have hsl : safeLine l := hsafe l (by simp)
    cases rest with
    | nil =>
      show splitLinesAux l [] = [l]
      rw [splitLinesAux_last l hsl (hne l (by simp))]
      simp
    | cons l2 rest2 =>
      show splitLinesAux (joinCRLF (l :: l2 :: rest2)) [] = l :: l2 :: rest2
      rw [joinCRLF_cons_cons, splitLinesAux_mid l hsl]
      have : splitLinesAux (joinCRLF (l2 :: rest2)) [] = l2 :: rest2 :=
        ih (by simp) (fun x hx => hsafe x (by simp [hx]))
          (fun x hx => hne x (by simp [hx]))
      rw [this]
      simp

lemma isPrefixOf_self_append (p x : Bytes) : p.isPrefixOf (p ++ x) = true := by
  simp [List.isPrefixOf_iff_prefix]

/-- Scanning the template's header lines finds the Content-Length line
and returns the bytes after the colon: one space, then the digits. -/
lemma findCL_template (host ds : Bytes) :
    findCL (httpTemplateLines host ds) = some (32 :: ds) := by
  have h1 : clPref.isPrefixOf (strB "POST / HTTP/1.1") = false := by decide
  have h2 : clPref.isPrefixOf (strB "Host: " ++ host) = false := by
    have e1 : clPref = 67 :: strB "ontent-Length:" := by decide
    have e2 : strB "Host: " = 72 :: strB "ost: " := by decide
    rw [e1, e2, List.cons_append]
    simp [List.isPrefixOf]
  have h3 : clPref.isPrefixOf (strB "User-Agent: py-ucall") = false := by decide
  have h4 : clPref.isPrefixOf (strB "Accept: */*") = false := by decide
  have h5 : clPref.isPrefixOf (strB "Connection: keep-alive") = false := by decide
  have e6 : strB "Content-Length: " ++ ds = clPref ++ 32 :: ds := by
    rw [show strB "Content-Length: " = clPref ++ [32] from by decide]
    simp
  have h6 : clPref.isPrefixOf (strB "Content-Length: " ++ ds) = true := by
    rw [e6]; exact isPrefixOf_self_append _ _
  rw [httpTemplateLines, findCL, h1, findCL, h2, findCL, h3, findCL, h4,
    findCL, h5, findCL, h6]
  simp [e6, List.drop_left]

/-! ### Decimal digits and Python `int` round trip -/

lemma decDigitsAux_bounds :
    ∀ (f n d : Nat), d ∈ decDigitsAux f n → 48 ≤ d ∧ d ≤ 57 := by
  intro f
  induction f with
  | zero => intro n d hd; simp [decDigitsAux] at hd
  | succ f ih =>
    intro n d hd
    rw [decDigitsAux] at hd
    by_cases h0 : n = 0
    · simp [h0] at hd
    · rw [if_neg h0] at hd
      rcases List.mem_append.mp hd with h | h
      · exact ih _ _ h
      · have : d = 48 + n % 10 := by simpa using h
        have : n % 10 < 10 := Nat.mod_lt _ (by omega)
        omega

lemma decimalCodes_bounds (n d : Nat) (hd : d ∈ decimalCodes n) :
    48 ≤ d ∧ d ≤ 57 := by
  rw [decimalCodes] at hd
  by_cases h0 : n = 0
  · simp [h0] at hd
    omega
  · rw [if_neg h0] at hd
    exact decDigitsAux_bounds n n d hd

lemma decimalCodes_ne_nil (n : Nat) : decimalCodes n ≠ [] := by
  rw [decimalCodes]
  by_cases h0 : n = 0
  · simp [h0]
  · rw [if_neg h0, decDigits]
    match hf : n, h0 with
    | m + 1, _ =>
      rw [decDigitsAux]
      simp

lemma decDigitsAux_foldl :
    ∀ (f n : Nat), n ≤ f →
      (decDigitsAux f n).foldl (fun a c => a * 10 + (c - 48)) 0 = n := by
  intro f
  induction f with
  | zero =>
    intro n hn
    have : n = 0 := by omega
    simp [this, decDigitsAux]
  | succ f ih =>
    intro n hn
    rw [decDigitsAux]
    by_cases h0 : n = 0
    · simp [h0]
    · rw [if_neg h0, List.foldl_append]
      have hdiv : n / 10 ≤ f := by
        have : n / 10 < n := Nat.div_lt_self (by omega) (by omega)
        omega
      rw [ih (n / 10) hdiv]
      simp only [List.foldl_cons, List.foldl_nil]
      have := Nat.div_add_mod n 10
      omega

lemma parseDigits_decimalCodes (n : Nat) :
    parseDigits (decimalCodes n) = some n := by
  rw [parseDigits, if_neg (decimalCodes_ne_nil n)]
  have hall : (decimalCodes n).all (fun c => 48 ≤ c && c ≤ 57) = true := by
    rw [List.all_eq_true]
    intro d hd
    have := decimalCodes_bounds n d hd
    simp
    omega
  rw [if_pos hall]
  by_cases h0 : n = 0
  · subst h0; decide
  · rw [decimalCodes, if_neg h0, decDigits, decDigitsAux_foldl n n (Nat.le_refl n)]

lemma stripB_space_digits (ds : Bytes) (hne : ds ≠ [])
    (hd : ∀ d ∈ ds, 48 ≤ d ∧ d ≤ 57) : stripB (32 :: ds) = ds := by
  have hnws : ∀ d ∈ ds, isWS d = false := by
    intro d hdm
    have := hd d hdm
    simp [isWS]
    omega
  rw [stripB]
  have h1 : (32 :: ds).dropWhile isWS = ds.dropWhile isWS :=
    List.dropWhile_cons_of_pos (by simp [isWS])
  have h2 : ds.dropWhile isWS = ds := by
    cases ds with
    | nil => rfl
    | cons d t =>
      exact List.dropWhile_cons_of_neg (by simp [hnws d (by simp)])
  rw [h1, h2]
  cases hrev : ds.reverse with
  | nil =>
    have : ds = [] := by simpa using congrArg List.reverse hrev
    exact absurd this hne
  | cons a t =>
    have ha : a ∈ ds := by
      have : a ∈ ds.reverse := by rw [hrev]; simp
      simpa using this
    rw [List.dropWhile_cons_of_neg (by simp [hnws a ha]), ← hrev]
    simp

lemma parsePyInt_space_decimal (n : Nat) :
    parsePyInt (32 :: decimalCodes n) = some (n : Int) := by
  rw [parsePyInt]
  have hstrip : stripB (32 :: decimalCodes n) = decimalCodes n :=
    stripB_space_digits _ (decimalCodes_ne_nil n) (decimalCodes_bounds n)
  rw [hstrip]
  cases hdc : decimalCodes n with
  | nil => exact absurd hdc (decimalCodes_ne_nil n)
  | cons c r =>
    have hc : 48 ≤ c ∧ c ≤ 57 := decimalCodes_bounds n c (by rw [hdc]; simp)
    rw [parseSigned, if_neg (by omega), if_neg (by omega), ← hdc,
      parseDigits_decimalCodes]
    rfl

lemma templateLines_safe (host ds : Bytes) (hhost : safeLine host)
    (hds : ∀ d ∈ ds, 48 ≤ d ∧ d ≤ 57) :
    ∀ l ∈ httpTemplateLines host ds, safeLine l := by
  intro l hl
  have hHostPart : safeLine (strB "Host: ") := by decide
  have hCLPart : safeLine (strB "Content-Length: ") := by decide
  rw [httpTemplateLines] at hl
  simp only [List.mem_cons, List.not_mem_nil, or_false] at hl
  rcases hl with rfl | rfl | rfl | rfl | rfl | rfl | rfl
  · decide
  · intro c hc
    rcases List.mem_append.mp hc with h | h
    · exact hHostPart c h
    · exact hhost c h
  · decide
  · decide
  · decide
  · intro c hc
    rcases List.mem_append.mp hc with h | h
    · exact hCLPart c h
    · have := hds c h
      omega
  · decide

lemma templateLines_ne_nil (host ds : Bytes) :
    ∀ l ∈ httpTemplateLines host ds, l ≠ [] := by
  intro l hl
  rw [httpTemplateLines] at hl
  simp only [List.mem_cons, List.not_mem_nil, or_false] at hl
  rcases hl with rfl | rfl | rfl | rfl | rfl | rfl | rfl
  · decide
  · simp [strB]
  · decide
  · decide
  · decide
  · simp [strB]
  · decide

/-- The written frame splits at exactly the header terminator, giving the
header block (without the blank line) and the untouched body. -/
lemma splitOnSep_httpFrame (host body : Bytes) (hhost : safeLine host) :
    splitOnSep (httpFrame host body) =
      some (joinCRLF (httpTemplateLines host (decimalCodes body.length)), body) := by
  have hflat : httpFrame host body =
      joinCRLF (httpTemplateLines host (decimalCodes body.length)) ++
        13 :: 10 :: 13 :: 10 :: body := by
    rw [httpFrame, httpHeaderBlock, sepBytes]
    simp
  rw [hflat]
  exact splitOnSep_header _ body (by simp [httpTemplateLines])
    (templateLines_safe host _ hhost (decimalCodes_bounds _))
    (templateLines_ne_nil host _)

/-- C1: for every body of byte length L, writing an HTTP-mode frame for it
(the header block built from `http_template` with its Content-Length field,
then the body — `_send` lines 138-139) and then parsing that frame with
the HTTP frame reader (`_receive_all_http`) yields exactly the original
body bytes, and the Content-Length value placed in the header equals L.
The host text is arbitrary as long as it holds no CR or LF byte. -/
theorem http_frame_roundtrip (host body : Bytes) (hhost : safeLine host)
    (fuel : Nat) :
    recvAllHttp [httpFrame host body] fuel = some (Except.ok body) ∧
    contentLengthOf (httpFrame host body) = some (body.length : Int) := by
  have hsplit := splitOnSep_httpFrame host body hhost
  have hlines : splitLines (joinCRLF (httpTemplateLines host (decimalCodes body.length))) =
      httpTemplateLines host (decimalCodes body.length) :=
    splitLines_joinCRLF _ (by simp [httpTemplateLines])
      (templateLines_safe host _ hhost (decimalCodes_bounds _))
      (templateLines_ne_nil host _)
  have hfind := findCL_template host (decimalCodes body.length)
  have hint := parsePyInt_space_decimal body.length
  have hframe_ne : httpFrame host body ≠ [] := by
    intro h
    rw [h] at hsplit
    simp [splitOnSep] at hsplit
  have hread : readHeader [httpFrame host body] [] = (httpFrame host body, []) := by
    rw [readHeader]
    simp only [splitOnSep, Option.isSome_none, Bool.false_eq_true, if_false]
    rw [if_neg hframe_ne, List.nil_append, readHeader, hsplit]
    simp
  constructor
  · have hzero : bodyLoop fuel [] body 0 = some body := by
      rw [bodyLoop.eq_def, if_pos rfl]
    simp [recvAllHttp, hread, hsplit, hlines, hfind, hint, hzero]
  · simp [contentLengthOf, hsplit, hlines, hfind, hint]

/-- Witness for C1 at a concrete input: the default host and the body
"hello" (5 bytes). -/
theorem http_frame_roundtrip_witness :
    recvAllHttp [httpFrame (strB "127.0.0.1:8545") (strB "hello")] 0 =
      some (Except.ok (strB "hello")) ∧
    contentLengthOf (httpFrame (strB "127.0.0.1:8545") (strB "hello")) = some 5 := by
  have h := http_frame_roundtrip (strB "127.0.0.1:8545") (strB "hello") (by decide) 0
  refine ⟨h.1, ?_⟩
  rw [h.2]
  decide

/-! ### Failure behavior of the readers on truncated or malformed input -/

/-- With the peer closed (every further `recv` returns `b''`) the body
loop never changes `content_len`, so a nonzero target loops forever. -/
lemma bodyLoop_closed (fuel : Nat) :
    ∀ (body : Bytes) (clen : Int), clen ≠ 0 → bodyLoop fuel [] body clen = none := by
  induction fuel with
  | zero =>
    intro body clen h
    rw [bodyLoop.eq_def, if_neg h]
  | succ f ih =>
    intro body clen h
    rw [bodyLoop.eq_def, if_neg h]
    simp only [List.tail_nil, List.headD_nil, List.append_nil, List.length_nil,
      Nat.cast_zero, Int.sub_zero]
    exact ih body clen h

/-- With the peer closed, the raw reader appends empty chunks forever
whenever the accumulated bytes do not end in the sentinel. -/
lemma recvAllTcp_closed (fuel : Nat) :
    ∀ acc : Bytes, endsWithTerm acc = false → recvAllTcp [] fuel acc = none := by
  induction fuel with
  | zero =>
    intro acc h
    rw [recvAllTcp.eq_def, h]
    simp
  | succ f ih =>
    intro acc h
    rw [recvAllTcp.eq_def, h]
    simp only [Bool.false_eq_true, if_false, List.tail_nil, List.headD_nil,
      List.append_nil]
    exact ih acc h

/-- The HTTP reader hangs on this chunk stream: `recvAllHttp` yields no
result for any amount of fuel, which is an infinite loop of the source's
`while content_len != 0` body loop. -/
def httpRecvDiverges (chunks : List Bytes) : Prop :=
  ∀ fuel : Nat, recvAllHttp chunks fuel = none

/-- The raw reader hangs on this chunk stream: no result for any fuel. -/
def tcpRecvDiverges (chunks : List Bytes) : Prop :=
  ∀ fuel : Nat, recvAllTcp chunks fuel [] = none

/-- C4 (code behavior at the failing inputs): when the peer sends a
header block with no Content-Length line and closes, `_receive_all_http`
loops forever (`content_len` starts at -1 and every closed-stream `recv`
subtracts 0), returning neither a body nor an error; and when the stream
ends before the `\r\n\r\n` separator ever appears, the reader raises a
bare `ValueError` from the two-element unpacking of `header.split`, not
an `IncompleteFrame`-style failure. -/
theorem http_reader_failure_modes :
    httpRecvDiverges [strB "HTTP/1.1 200 OK\r\n\r\n"] ∧
    recvAllHttp [strB "HTTP/1.1 200"] 5 = some (Except.error PyErr.valueError) := by
  constructor
  · intro fuel
    have h1 : readHeader [strB "HTTP/1.1 200 OK\r\n\r\n"] [] =
        (strB "HTTP/1.1 200 OK\r\n\r\n", []) := by decide
    have h2 : splitOnSep (strB "HTTP/1.1 200 OK\r\n\r\n") =
        some (strB "HTTP/1.1 200 OK", []) := by decide
    have hl : splitLines (strB "HTTP/1.1 200 OK") = [strB "HTTP/1.1 200 OK"] := by
      have := splitLinesAux_last (strB "HTTP/1.1 200 OK") (by decide) (by decide) []
      simpa [splitLines] using this
    have h3 : findCL (splitLines (strB "HTTP/1.1 200 OK")) = none := by
      rw [hl, findCL,
        show clPref.isPrefixOf (strB "HTTP/1.1 200 OK") = false from by decide]
      simp [findCL]
    have h4 : bodyLoop fuel [] [] (-1) = none := bodyLoop_closed fuel [] (-1) (by decide)
    simp [recvAllHttp, h1, h2, h3, h4]
  · have h1 : readHeader [strB "HTTP/1.1 200"] [] = (strB "HTTP/1.1 200", []) := by
      decide
    have h2 : splitOnSep (strB "HTTP/1.1 200") = none := by decide
    simp [recvAllHttp, h1, h2]

/-- C5 (code behavior at the failing inputs): a zero-length read (peer
closed) before a complete frame produces no `ConnectionClosed` failure
anywhere. The raw reader spins forever appending empty reads to a
terminator-less body, and the HTTP reader turns an immediately closed
stream into a bare `ValueError`; no error type distinguishes closure
from any other malformed input. -/
theorem zero_read_failure_modes :
    tcpRecvDiverges [[53]] ∧
    recvAllHttp [] 5 = some (Except.error PyErr.valueError) := by
  constructor
  · intro fuel
    match fuel with
    | 0 =>
      rw [recvAllTcp.eq_def]
      decide
    | f + 1 =>
      rw [recvAllTcp.eq_def]
      have : endsWithTerm [] = false := by decide
      rw [this]
      simp only [Bool.false_eq_true, if_false, List.tail_cons, List.headD_cons,
        List.nil_append]
      exact recvAllTcp_closed f [53] (by decide)
  · have h1 : readHeader [] [] = ([], []) := by decide
    have h2 : splitOnSep ([] : Bytes) = none := rfl
    simp [recvAllHttp, h1, h2]

/-! ## Connection lifecycle — `Client._socket_is_closed`,
`Client._make_socket`, `ClientTLS._socket_is_closed`,
`ClientTLS._make_socket`, `ClientTLS.__init__` -/

/-- Linux value of `errno.EAGAIN` used by the plain-mode probe. -/
def EAGAIN : Int := 11

/-- What one `recv` call on a plain socket can produce: a byte string, a
`BlockingIOError` with an errno, or another `OSError`. -/
inductive RecvOutcome
  | ok (buf : Bytes)
  | blockingErr (e : Int)
  | osErr (e : Int)
  deriving DecidableEq, Repr

/-- Exceptions that can escape `_socket_is_closed` (plain mode): a
re-raised `BlockingIOError` whose errno is not EAGAIN, or an uncaught
`OSError` of any other kind. -/
inductive ProbeExc
  | blockingIOError (e : Int)
  | osError (e : Int)
  deriving DecidableEq, Repr

/-- State of a plain TCP socket as the probe sees it: the decrypted
bytes available to read, whether the peer has closed (end of stream
after `pending`), and an optional fault the next `recv` raises. -/
structure PlainSock where
  pending : Bytes
  peerClosed : Bool
  fault : Option (Bool × Int)
  deriving DecidableEq, Repr

/-- POSIX `recv(n, flags)` on the modelled socket. With `MSG_PEEK` the
socket state is left untouched; without it the read consumes. A socket
with data returns up to `n` bytes; an empty stream returns `b''` when
the peer closed and otherwise would block (`MSG_DONTWAIT` turns that
into `BlockingIOError(EAGAIN)`). An injected fault is raised instead. -/
def recvSock (s : PlainSock) (n : Nat) (peek : Bool) : RecvOutcome × PlainSock :=
  match s.fault with
  | some (true, e) => (.blockingErr e, s)
  | some (false, e) => (.osErr e, s)
  | none =>
    match s.pending with
    | [] => if s.peerClosed then (.ok [], s) else (.blockingErr EAGAIN, s)
    | _ =>
      (.ok (s.pending.take n),
        if peek then s else { s with pending := s.pending.drop n })

/-- `Client._socket_is_closed` (lines 119-132): `True` when there is no
socket; otherwise peek one byte without blocking
(`recv(1, MSG_PEEK | MSG_DONTWAIT)`). `b''` means closed; a
`BlockingIOError` is re-raised unless its errno is EAGAIN; any result
byte means open. Returns the answer together with the socket state after
the probe. -/
def socketIsClosed (sock : Option PlainSock) :
    Except ProbeExc Bool × Option PlainSock :=
  match sock with
  | none => (.ok true, none)
  | some s =>
    match recvSock s 1 true with
    | (.ok buf, s') =>
      if buf = [] then (.ok true, some s') else (.ok false, some s')
    | (.blockingErr e, s') =>
      if e ≠ EAGAIN then (.error (.blockingIOError e), some s')
      else (.ok false, some s')
    | (.osErr e, s') => (.error (.osError e), some s')

/-- C6: the plain-mode liveness probe returns True when there is no
socket or when the non-blocking one-byte peek returns zero bytes; False
when the peek would block with EAGAIN or returns data; re-raises a
BlockingIOError whose errno is not EAGAIN and lets any other I/O error
propagate; and in every case leaves the socket state — including its
pending application data — exactly as it was, because the read uses
MSG_PEEK. -/
theorem socket_is_closed_plain_spec (s : PlainSock) :
    socketIsClosed none = (.ok true, none) ∧
    (s.fault = none → s.pending = [] → s.peerClosed = true →
      socketIsClosed (some s) = (.ok true, some s)) ∧
    (s.fault = none → s.pending = [] → s.peerClosed = false →
      socketIsClosed (some s) = (.ok false, some s)) ∧
    (s.fault = none → s.pending ≠ [] →
      socketIsClosed (some s) = (.ok false, some s)) ∧
    (∀ e, s.fault = some (true, e) → e ≠ EAGAIN →
      socketIsClosed (some s) = (.error (.blockingIOError e), some s)) ∧
    (s.fault = some (true, EAGAIN) →
      socketIsClosed (some s) = (.ok false, some s)) ∧
    (∀ e, s.fault = some (false, e) →
      socketIsClosed (some s) = (.error (.osError e), some s)) ∧
    (socketIsClosed (some s)).2 = some s := by
  refine ⟨rfl, ?_, ?_, ?_, ?_, ?_, ?_, ?_⟩
  · intro hf hp hc
    simp [socketIsClosed, recvSock, hf, hp, hc]
  · intro hf hp hc
    simp [socketIsClosed, recvSock, hf, hp, hc, EAGAIN]
  · intro hf hp
    cases hpend : s.pending with
    | nil => exact absurd hpend hp
    | cons b t => simp [socketIsClosed, recvSock, hf, hpend]
  · intro e hf he
    simp [socketIsClosed, recvSock, hf, he]
  · intro hf
    simp [socketIsClosed, recvSock, hf]
  · intro e hf
    simp [socketIsClosed, recvSock, hf]
  · rcases hf : s.fault with _ | ⟨b, e⟩
    · cases hpend : s.pending with
      | nil =>
        by_cases hc : s.peerClosed <;>
          simp [socketIsClosed, recvSock, hf, hpend, hc, EAGAIN]
      | cons x t =>
        simp [socketIsClosed, recvSock, hf, hpend]
    · cases b <;> by_cases he : e = EAGAIN <;>
        simp [socketIsClosed, recvSock, hf, he]

/-- Witness for C6 at concrete inputs: a closed-peer socket probes True,
a socket with pending data probes False with its data untouched. -/
theorem socket_is_closed_plain_spec_witness :
    socketIsClosed (some ⟨[], true, none⟩) = (.ok true, some ⟨[], true, none⟩) ∧
    socketIsClosed (some ⟨[7], false, none⟩) = (.ok false, some ⟨[7], false, none⟩) := by
  exact ⟨(socket_is_closed_plain_spec ⟨[], true, none⟩).2.1 rfl rfl rfl,
    (socket_is_closed_plain_spec ⟨[7], false, none⟩).2.2.2.1 rfl (by simp)⟩

/-- State of a TLS-wrapped socket as `ClientTLS` sees it: whether it is
in blocking mode, whether the one-byte non-blocking TLS read
(`sock.read(1, None)`) raises, the value `sock.pending()` reports, the
session token that was passed to `wrap_socket` when this connection was
made, and the session token of this connection itself. -/
structure TLSSock where
  blocking : Bool
  readRaises : Bool
  pendingBytes : Int
  sessionArg : Option Nat
  session : Nat
  deriving DecidableEq, Repr

/-- `ClientTLS._socket_is_closed` (lines 221-232): `True` when there is
no socket; otherwise `setblocking(False)`, attempt `read(1, None)`
inside `try`, return `False` from `except Exception`, restore
`setblocking(True)` in `finally` on both paths, and on success answer
`pending() <= 0`. The probe never lets the read's exception escape. -/
def tlsSocketIsClosed (sock : Option TLSSock) : Bool × Option TLSSock :=
  match sock with
  | none => (true, none)
  | some s =>
    let s1 : TLSSock := { s with blocking := false }
    if s1.readRaises then (false, some { s1 with blocking := true })
    else
      let s2 : TLSSock := { s1 with blocking := true }
      (decide (s2.pendingBytes ≤ 0), some s2)

/-- C7: the TLS-mode liveness probe treats any exception raised by its
non-blocking one-byte TLS-layer read as connection-still-open — it
returns False rather than propagating (the probe's type is a total pair,
no exception channel) — and on every exit path, exceptional or not, the
socket it hands back is in blocking mode again. -/
theorem tls_socket_is_closed_spec (s : TLSSock) :
    (s.readRaises = true → (tlsSocketIsClosed (some s)).1 = false) ∧
    (tlsSocketIsClosed (some s)).2 = some { s with blocking := true } := by
  constructor
  · intro h
    simp [tlsSocketIsClosed, h]
  · by_cases h : s.readRaises <;> simp [tlsSocketIsClosed, h]

/-- Witness for C7 at a concrete input: a non-blocking socket whose TLS
read raises is reported open and left in blocking mode. -/
theorem tls_socket_is_closed_spec_witness :
    (tlsSocketIsClosed (some ⟨false, true, 3, none, 0⟩)).1 = false ∧
    (tlsSocketIsClosed (some ⟨false, true, 3, none, 0⟩)).2 =
      some ⟨true, true, 3, none, 0⟩ := by
  exact ⟨(tls_socket_is_closed_spec ⟨false, true, 3, none, 0⟩).1 rfl,
    (tls_socket_is_closed_spec ⟨false, true, 3, none, 0⟩).2⟩

/-- The probe leaves the plain socket state exactly as it was. -/
lemma socketIsClosed_snd (sock : Option PlainSock) :
    (socketIsClosed sock).2 = sock := by
  match sock with
  | none => rfl
  | some s =>
    rcases hf : s.fault with _ | ⟨b, e⟩
    · cases hpend : s.pending with
      | nil =>
        by_cases hc : s.peerClosed <;>
          simp [socketIsClosed, recvSock, hf, hpend, hc, EAGAIN]
      | cons x t =>
        simp [socketIsClosed, recvSock, hf, hpend]
    · cases b <;> by_cases he : e = EAGAIN <;>
        simp [socketIsClosed, recvSock, hf, he]

/-- `Client._make_socket` (lines 113-117): return the socket untouched
when the probe does not report closure; otherwise create and connect a
fresh socket (modelled by `fresh`, the connected replacement the
environment provides). An exception from the probe propagates. -/
def makeSocket (sock : Option PlainSock) (fresh : PlainSock) :
    Except ProbeExc (Option PlainSock) :=
  match socketIsClosed sock with
  | (.ok true, _) => .ok (some fresh)
  | (.ok false, s') => .ok s'
  | (.error e, _) => .error e

/-- State a `ClientTLS` instance carries across calls: its socket, its
stored session-resumption token, and the `enable_session_resumption`
flag. -/
structure TLSClientState where
  sock : Option TLSSock
  session : Option Nat
  sessionResumption : Bool
  deriving DecidableEq, Repr

/-- `ClientTLS.__init__` (lines 194-209): no socket yet,
`self.session = None`, resumption flag as configured. -/
def initTLS (enableResumption : Bool) : TLSClientState :=
  ⟨none, none, enableResumption⟩

/-- `ClientTLS._make_socket` (lines 211-219): return unchanged (apart
from the probe's own effect) when the probe does not report closure;
otherwise wrap a fresh socket passing `session=self.session` to the
handshake and, exactly when resumption is enabled, store the new
connection's session token. -/
def makeSocketTLS (st : TLSClientState) (fresh : TLSSock) : TLSClientState :=
  match tlsSocketIsClosed st.sock with
  | (false, s') => { st with sock := s' }
  | (true, _) =>
    { st with
      sock := some { fresh with sessionArg := st.session },
      session := if st.sessionResumption then some fresh.session else st.session }

/-- A whole sequence of `_make_socket` calls on one `ClientTLS`
instance, each with the fresh connected socket the environment would
produce for it. -/
def runTLSCalls (st : TLSClientState) (freshes : List TLSSock) : TLSClientState :=
  freshes.foldl makeSocketTLS st

/-- C8: the connection-ensuring step leaves the existing socket object
unchanged whenever the liveness probe reports the connection open, and
creates and connects a replacement exactly when the probe reports it
absent or closed; in particular a call issued after the peer closed the
previous connection runs on a new socket. Stated for the plain-mode
`Client._make_socket` and the TLS `ClientTLS._make_socket` (whose probe
also restores blocking mode, so a socket that was in blocking mode is
returned identical). -/
theorem make_socket_reuse_spec (sock : Option PlainSock) (fresh : PlainSock)
    (st : TLSClientState) (freshT : TLSSock) :
    ((socketIsClosed sock).1 = .ok false → makeSocket sock fresh = .ok sock) ∧
    ((socketIsClosed sock).1 = .ok true → makeSocket sock fresh = .ok (some fresh)) ∧
    (∀ s, sock = some s → s.fault = none → s.pending = [] → s.peerClosed = true →
      makeSocket sock fresh = .ok (some fresh)) ∧
    ((tlsSocketIsClosed st.sock).1 = false →
      ∀ s, st.sock = some s → s.blocking = true →
        (makeSocketTLS st freshT).sock = st.sock ∧
        (makeSocketTLS st freshT).session = st.session) ∧
    ((tlsSocketIsClosed st.sock).1 = true →
      (makeSocketTLS st freshT).sock = some { freshT with sessionArg := st.session }) := by
  have hsnd := socketIsClosed_snd sock
  refine ⟨?_, ?_, ?_, ?_, ?_⟩
  · intro h
    rcases hres : socketIsClosed sock with ⟨r, s2⟩
    rw [hres] at h hsnd
    simp at h hsnd
    rw [makeSocket, hres, h, hsnd]
  · intro h
    rcases hres : socketIsClosed sock with ⟨r, s2⟩
    rw [hres] at h
    simp at h
    rw [makeSocket, hres, h]
  · intro s hs hf hp hc
    subst hs
    have hclosed : socketIsClosed (some s) = (.ok true, some s) := by
      simp [socketIsClosed, recvSock, hf, hp, hc]
    rw [makeSocket, hclosed]
  · intro h s hs hb
    rcases hres : tlsSocketIsClosed st.sock with ⟨r, s2⟩
    rw [hres] at h
    simp at h
    subst h
    have hs2 : s2 = some { s with blocking := true } := by
      have hsnd2 : (tlsSocketIsClosed (some s)).2 = some { s with blocking := true } := by
        by_cases hr : s.readRaises <;> simp [tlsSocketIsClosed, hr]
      rw [hs] at hres
      rw [hres] at hsnd2
      exact hsnd2
    have hsame : ({ s with blocking := true } : TLSSock) = s := by
      cases s
      simp_all
    rw [makeSocketTLS, hres]
    constructor
    · simp [hs2, hsame, hs]
    · rfl
  · intro h
    rcases hres : tlsSocketIsClosed st.sock with ⟨r, s2⟩
    rw [hres] at h
    simp at h
    subst h
    rw [makeSocketTLS, hres]

/-- Witness for C8 at concrete inputs: an open socket with buffered data
is kept; an absent socket is replaced by the fresh one. -/
theorem make_socket_reuse_spec_witness :
    makeSocket (some ⟨[9], false, none⟩) ⟨[], false, none⟩ =
      .ok (some ⟨[9], false, none⟩) ∧
    makeSocket none ⟨[], false, none⟩ = .ok (some ⟨[], false, none⟩) := by
  refine ⟨?_, ?_⟩
  · exact (make_socket_reuse_spec (some ⟨[9], false, none⟩) ⟨[], false, none⟩
      (initTLS true) ⟨true, false, 0, none, 0⟩).1 (by simp [socketIsClosed, recvSock])
  · exact (make_socket_reuse_spec none ⟨[], false, none⟩
      (initTLS true) ⟨true, false, 0, none, 0⟩).2.1 rfl

lemma makeSocketTLS_resumption (st : TLSClientState) (fresh : TLSSock) :
    (makeSocketTLS st fresh).sessionResumption = st.sessionResumption := by
  rcases hres : tlsSocketIsClosed st.sock with ⟨r, s2⟩
  cases r <;> simp [makeSocketTLS, hres]

lemma makeSocketTLS_session_disabled (st : TLSClientState) (fresh : TLSSock)
    (h : st.sessionResumption = false) :
    (makeSocketTLS st fresh).session = st.session := by
  rcases hres : tlsSocketIsClosed st.sock with ⟨r, s2⟩
  cases r <;> simp [makeSocketTLS, hres, h]

lemma runTLSCalls_disabled (freshes : List TLSSock) :
    ∀ st : TLSClientState, st.sessionResumption = false →
      (runTLSCalls st freshes).session = st.session := by
  induction freshes with
  | nil => intro st _; rfl
  | cons f rest ih =>
    intro st h
    show (runTLSCalls (makeSocketTLS st f) rest).session = st.session
    rw [ih _ (by rw [makeSocketTLS_resumption]; exact h),
      makeSocketTLS_session_disabled st f h]

/-- C9: whenever a new TLS connection is made, the stored resumption
token is passed to its handshake (`wrap_socket(..., session=self.session)`);
after the handshake the stored token is updated from the fresh connection
exactly when session resumption is enabled; with resumption disabled the
token is left alone by every call, so a client constructed with
resumption disabled keeps `session = None` through any sequence of
connection replacements. -/
theorem tls_session_lifecycle (st : TLSClientState) (fresh : TLSSock)
    (freshes : List TLSSock) :
    ((tlsSocketIsClosed st.sock).1 = true →
      (makeSocketTLS st fresh).sock = some { fresh with sessionArg := st.session } ∧
      (makeSocketTLS st fresh).session =
        (if st.sessionResumption = true then some fresh.session else st.session)) ∧
    (st.sessionResumption = false → (makeSocketTLS st fresh).session = st.session) ∧
    (runTLSCalls (initTLS false) freshes).session = none := by
  refine ⟨?_, ?_, ?_⟩
  · intro h
    rcases hres : tlsSocketIsClosed st.sock with ⟨r, s2⟩
    rw [hres] at h
    simp at h
    subst h
    constructor
    · rw [makeSocketTLS, hres]
    · rw [makeSocketTLS, hres]
  · exact makeSocketTLS_session_disabled st fresh
  · exact runTLSCalls_disabled freshes (initTLS false) rfl

/-- Witness for C9 at a concrete input: a client holding token 7 with
resumption enabled and no socket passes 7 to the new handshake and then
stores the new connection's token 42. -/
theorem tls_session_lifecycle_witness :
    (makeSocketTLS ⟨none, some 7, true⟩ ⟨true, false, 0, none, 42⟩).sock =
      some ⟨true, false, 0, some 7, 42⟩ ∧
    (makeSocketTLS ⟨none, some 7, true⟩ ⟨true, false, 0, none, 42⟩).session =
      some 42 := by
  have h := (tls_session_lifecycle ⟨none, some 7, true⟩
    ⟨true, false, 0, none, 42⟩ []).1 rfl
  exact ⟨h.1, by rw [h.2]; rfl⟩

/-! ## Envelope serialization and Content-Length in bytes — `Request`,
`Client._send` -/

/-- UTF-8 encoding of one Unicode code point, as `str.encode()` does. -/
def utf8Char (c : Nat) : Bytes :=
  if c < 128 then [c]
  else if c < 2048 then [192 + c / 64, 128 + c % 64]
  else if c < 65536 then [224 + c / 4096, 128 + c / 64 % 64, 128 + c % 64]
  else [240 + c / 262144, 128 + c / 4096 % 64, 128 + c / 64 % 64, 128 + c % 64]

/-- `str.encode()`: UTF-8 encode a string given as code points. -/
def utf8Encode (s : Bytes) : Bytes := (s.map utf8Char).flatten

lemma utf8Encode_ascii (s : Bytes) (h : ∀ c ∈ s, c < 128) : utf8Encode s = s := by
  induction s with
  | nil => rfl
  | cons c t ih =>
    have hc : c < 128 := h c (by simp)
    have ht : utf8Encode t = t := ih (fun x hx => h x (by simp [hx]))
    simp only [utf8Encode, List.map_cons, List.flatten_cons] at ht ⊢
    rw [ht, utf8Char, if_pos hc]
    rfl

lemma utf8Encode_append (a b : Bytes) :
    utf8Encode (a ++ b) = utf8Encode a ++ utf8Encode b := by
  simp [utf8Encode]

/-- Lowercase hexadecimal digit, as the `json` module emits. -/
def hexDigitChar (n : Nat) : Nat := if n < 10 then 48 + n else 87 + n

/-- A `\uXXXX` escape for one UTF-16 code unit. -/
def uEsc (c : Nat) : Bytes :=
  [92, 117, hexDigitChar (c / 4096 % 16), hexDigitChar (c / 256 % 16),
    hexDigitChar (c / 16 % 16), hexDigitChar (c % 16)]

/-- How `json.dumps` with its default `ensure_ascii=True` renders one
code point inside a string literal: the two-character escapes for
quote, backslash and control characters that have them, `\u00XX` for the
other controls, the character itself only in the printable ASCII range
32..126, and `\uXXXX` (a surrogate pair beyond the basic plane) for
everything non-ASCII. -/
def jsonEscapeChar (c : Nat) : Bytes :=
  if c = 34 then [92, 34]
  else if c = 92 then [92, 92]
  else if c = 8 then [92, 98]
  else if c = 9 then [92, 116]
  else if c = 10 then [92, 110]
  else if c = 12 then [92, 102]
  else if c = 13 then [92, 114]
  else if c < 32 then uEsc c
  else if c < 127 then [c]
  else if c < 65536 then uEsc c
  else uEsc (55296 + (c - 65536) / 1024) ++ uEsc (56320 + (c - 65536) % 1024)

lemma hexDigitChar_lt (n : Nat) (h : n < 16) : hexDigitChar n < 128 := by
  rw [hexDigitChar]
  split <;> omega

lemma uEsc_ascii (c : Nat) : ∀ d ∈ uEsc c, d < 128 := by
  intro d hd
  have h1 := hexDigitChar_lt (c / 4096 % 16) (Nat.mod_lt _ (by omega))
  have h2 := hexDigitChar_lt (c / 256 % 16) (Nat.mod_lt _ (by omega))
  have h3 := hexDigitChar_lt (c / 16 % 16) (Nat.mod_lt _ (by omega))
  have h4 := hexDigitChar_lt (c % 16) (Nat.mod_lt _ (by omega))
  simp only [uEsc, List.mem_cons, List.not_mem_nil, or_false] at hd
  rcases hd with rfl | rfl | rfl | rfl | rfl | rfl <;> omega

set_option maxHeartbeats 1000000 in
lemma jsonEscapeChar_ascii (c : Nat) : ∀ d ∈ jsonEscapeChar c, d < 128 := by
  intro d hd
  rw [jsonEscapeChar] at hd
  split_ifs at hd with h1 h2 h3 h4 h5 h6 h7 h8 h9 h10
  · simp only [List.mem_cons, List.not_mem_nil, or_false] at hd; omega
  · simp only [List.mem_cons, List.not_mem_nil, or_false] at hd; omega
  · simp only [List.mem_cons, List.not_mem_nil, or_false] at hd; omega
  · simp only [List.mem_cons, List.not_mem_nil, or_false] at hd; omega
  · simp only [List.mem_cons, List.not_mem_nil, or_false] at hd; omega
  · simp only [List.mem_cons, List.not_mem_nil, or_false] at hd; omega
  · simp only [List.mem_cons, List.not_mem_nil, or_false] at hd; omega
  · exact uEsc_ascii _ d hd
  · simp only [List.mem_cons, List.not_mem_nil, or_false] at hd; omega
  · exact uEsc_ascii _ d hd
  · rcases List.mem_append.mp hd with h | h
    · exact uEsc_ascii _ d h
    · exact uEsc_ascii _ d h

/-- A JSON scalar value as it appears in a request after packing:
numbers, text, booleans, null. Binary payloads have already been
replaced by their base64 text at this stage. -/
inductive Pv
  | num (n : Int)
  | str (s : Bytes)
  | boolv (b : Bool)
  | nullv
  deriving DecidableEq, Repr

/-- The `params` member: a positional sequence or a name-value mapping. -/
inductive Jparams
  | pos (l : List Pv)
  | named (l : List (Bytes × Pv))
  deriving DecidableEq, Repr

/-- The request envelope `_send` serializes: `method`, `params`,
`jsonrpc` fixed to "2.0", and the `id` it has just inserted. -/
structure Env where
  method : Bytes
  params : Jparams
  id : Int
  deriving DecidableEq, Repr

/-- `repr` of a Python int as `json.dumps` emits it. -/
def intCodes (n : Int) : Bytes :=
  if n < 0 then 45 :: decimalCodes n.natAbs else decimalCodes n.natAbs

/-- A JSON string literal with `ensure_ascii` escaping. -/
def dumpsStr (s : Bytes) : Bytes := [34] ++ (s.map jsonEscapeChar).flatten ++ [34]

/-- One scalar value. -/
def dumpsPv : Pv → Bytes
  | .num n => intCodes n
  | .str s => dumpsStr s
  | .boolv true => strB "true"
  | .boolv false => strB "false"
  | .nullv => strB "null"

/-- `json.dumps` default item separator ", ". -/
def joinComma : List Bytes → Bytes
  | [] => []
  | [x] => x
  | x :: y :: t => x ++ 44 :: 32 :: joinComma (y :: t)

/-- The `params` member: a JSON array or object with the default
", " and ": " separators. -/
def dumpsParams : Jparams → Bytes
  | .pos l => [91] ++ joinComma (l.map dumpsPv) ++ [93]
  | .named l =>
      [123] ++ joinComma (l.map fun kv => dumpsStr kv.1 ++ 58 :: 32 :: dumpsPv kv.2)
        ++ [125]

/-- `json.dumps(req_obj.packed)` (line 137): the object literal in the
insertion order of its keys — `method` and `params` from the caller,
`jsonrpc`, then the `id` that `_send` line 135 adds last. -/
def dumpsEnv (e : Env) : Bytes :=
  [123] ++ dumpsStr (strB "method") ++ 58 :: 32 :: dumpsStr e.method
    ++ 44 :: 32 :: dumpsStr (strB "params") ++ 58 :: 32 :: dumpsParams e.params
    ++ 44 :: 32 :: dumpsStr (strB "jsonrpc") ++ 58 :: 32 :: dumpsStr (strB "2.0")
    ++ 44 :: 32 :: dumpsStr (strB "id") ++ 58 :: 32 :: intCodes e.id ++ [125]

lemma intCodes_ascii (n : Int) : ∀ d ∈ intCodes n, d < 128 := by
  intro d hd
  rw [intCodes] at hd
  split_ifs at hd with h
  · rcases List.mem_cons.mp hd with h' | h'
    · omega
    · have := decimalCodes_bounds _ _ h'
      omega
  · have := decimalCodes_bounds _ _ hd
    omega

lemma dumpsStr_ascii (s : Bytes) : ∀ d ∈ dumpsStr s, d < 128 := by
  intro d hd
  rw [dumpsStr] at hd
  rcases List.mem_append.mp hd with h | h
  · rcases List.mem_append.mp h with h' | h'
    · simp at h'; omega
    · rcases List.mem_flatten.mp h' with ⟨piece, hp, hdp⟩
      rcases List.mem_map.mp hp with ⟨c, _, rfl⟩
      exact jsonEscapeChar_ascii c d hdp
  · simp at h; omega

lemma dumpsPv_ascii (v : Pv) : ∀ d ∈ dumpsPv v, d < 128 := by
  intro d hd
  cases v with
  | num n => exact intCodes_ascii n d hd
  | str s => exact dumpsStr_ascii s d hd
  | boolv b => cases b <;> (simp [dumpsPv, strB] at hd; omega)
  | nullv => simp [dumpsPv, strB] at hd; omega

lemma joinComma_ascii :
    ∀ ls : List Bytes, (∀ x ∈ ls, ∀ d ∈ x, d < 128) →
      ∀ d ∈ joinComma ls, d < 128
  | [], _, d, hd => by simp [joinComma] at hd
  | [x], h, d, hd => h x (by simp) d (by simpa [joinComma] using hd)
  | x :: y :: t, h, d, hd => by
    rw [joinComma] at hd
    rcases List.mem_append.mp hd with h' | h'
    · exact h x (by simp) d h'
    · rcases List.mem_cons.mp h' with h'' | h''
      · omega
      · rcases List.mem_cons.mp h'' with h3 | h3
        · omega
        · exact joinComma_ascii (y :: t) (fun z hz => h z (by simp [hz])) d h3

lemma dumpsParams_ascii (p : Jparams) : ∀ d ∈ dumpsParams p, d < 128 := by
  intro d hd
  cases p with
  | pos l =>
    rw [dumpsParams] at hd
    rcases List.mem_append.mp hd with h | h
    · rcases List.mem_append.mp h with h' | h'
      · simp at h'; omega
      · refine joinComma_ascii _ ?_ d h'
        intro x hx
        rcases List.mem_map.mp hx with ⟨v, _, rfl⟩
        exact dumpsPv_ascii v
    · simp at h; omega
  | named l =>
    rw [dumpsParams] at hd
    rcases List.mem_append.mp hd with h | h
    · rcases List.mem_append.mp h with h' | h'
      · simp at h'; omega
      · refine joinComma_ascii _ ?_ d h'
        intro x hx
        rcases List.mem_map.mp hx with ⟨kv, _, rfl⟩
        intro d' hd'
        rcases List.mem_append.mp hd' with h2 | h2
        · exact dumpsStr_ascii kv.1 d' h2
        · rcases List.mem_cons.mp h2 with h3 | h3
          · omega
          · rcases List.mem_cons.mp h3 with h4 | h4
            · omega
            · exact dumpsPv_ascii kv.2 d' h4
    · simp at h; omega

/-- Everything `json.dumps` emits with `ensure_ascii=True` is ASCII. -/
lemma dumpsEnv_ascii (e : Env) : ∀ d ∈ dumpsEnv e, d < 128 := by
  intro d hd
  rw [dumpsEnv] at hd
  simp only [List.append_assoc, List.mem_append, List.mem_cons,
    List.mem_singleton] at hd
  rcases hd with h | h | h | h | h | h | h | h | h | h | h | h | h | h | h | h | h
  all_goals first
    | omega
    | exact dumpsStr_ascii _ d h
    | exact dumpsParams_ascii _ d h
    | exact intCodes_ascii _ d h
    | (rcases h with rfl | h <;> first | omega | simp at h)
    | (rcases h with rfl | rfl | h <;>
        first
          | omega
          | exact dumpsStr_ascii _ d h
          | exact dumpsParams_ascii _ d h
          | exact intCodes_ascii _ d h)

/-- `len(request)` at line 139: the length in characters of the
serialized request string, which is the value interpolated into the
`Content-Length: %i` field. -/
def contentLengthWritten (e : Env) : Nat := (dumpsEnv e).length

/-- The body bytes actually sent on the wire: the serialized request
after `str.encode()`. -/
def wireBody (e : Env) : Bytes := utf8Encode (dumpsEnv e)

/-- `_send` lines 138-144 in HTTP mode:
`(self.http_template % len(request) + request).encode()`. -/
def sendHttpFrame (host : Bytes) (e : Env) : Bytes :=
  utf8Encode (httpHeaderBlock host (contentLengthWritten e) ++ dumpsEnv e)

/-- C3: for every request envelope — including any whose field values
hold non-ASCII text — the Content-Length value written into the HTTP
header block equals the number of bytes of the encoded body that is
actually sent on the wire. `json.dumps` with its default
`ensure_ascii=True` emits only ASCII, so the character count `len(request)`
that the code interpolates coincides with the UTF-8 byte count of the
encoded body. -/
theorem content_length_counts_bytes (host : Bytes) (e : Env) :
    contentLengthWritten e = (wireBody e).length ∧
    sendHttpFrame host e =
      utf8Encode (httpHeaderBlock host (contentLengthWritten e)) ++ wireBody e := by
  constructor
  · rw [wireBody, utf8Encode_ascii _ (dumpsEnv_ascii e), contentLengthWritten]
  · rw [sendHttpFrame, utf8Encode_append]
    rfl

/-! ## Request packing — `Request.pack`, `Request._pack_numpy`,
`Request._pack_bytes`, `Request._pack_pillow`, `Client._send` -/

/-- One character of the standard base64 alphabet. -/
def b64Char (n : Nat) : Nat :=
  if n < 26 then 65 + n
  else if n < 52 then 97 + (n - 26)
  else if n < 62 then 48 + (n - 52)
  else if n = 62 then 43
  else 47

/-- `base64.b64encode`: three input bytes become four alphabet
characters; a trailing group of one or two bytes is padded with `=`. -/
def b64encode : Bytes → Bytes
  | b1 :: b2 :: b3 :: rest =>
    b64Char (b1 / 4) :: b64Char (b1 % 4 * 16 + b2 / 16) ::
      b64Char (b2 % 16 * 4 + b3 / 64) :: b64Char (b3 % 64) :: b64encode rest
  | [b1, b2] =>
    [b64Char (b1 / 4), b64Char (b1 % 4 * 16 + b2 / 16), b64Char (b2 % 16 * 4), 61]
  | [b1] => [b64Char (b1 / 4), b64Char (b1 % 4 * 16), 61, 61]
  | [] => []

/-- A value the caller can place in `params` before packing: a numpy
array (represented by the bytes `np.save` writes for it), a PIL image
(represented by the bytes `image.save` re-encodes it to), a raw `bytes`
object, or any other value, which `pack` leaves untouched. -/
inductive PreVal
  | npArr (saved : Bytes)
  | img (saved : Bytes)
  | raw (b : Bytes)
  | plain (v : Pv)
  deriving DecidableEq, Repr

/-- The `isinstance` dispatch in the loop body of `Request.pack`
(lines 73-81): numpy arrays, images and byte buffers are replaced by
their base64 text (`_pack_numpy` / `_pack_pillow` / `_pack_bytes`, each
`b64encode(...).decode()` of the value's serialized bytes); everything
else is left as it is. -/
def packVal : PreVal → PreVal
  | .npArr s => .plain (.str (b64encode s))
  | .img s => .plain (.str (b64encode s))
  | .raw b => .plain (.str (b64encode b))
  | .plain v => .plain v

/-- The `params` container before packing: `pack` iterates over
`range(len(...))` for a sequence and over `.keys()` for a mapping. -/
inductive PContainer
  | pos (l : List PreVal)
  | named (l : List (Bytes × PreVal))
  deriving DecidableEq, Repr

/-- The caller's `params` object, with an identity tag so that the model
can state that `pack` mutates the object in place rather than building a
replacement. -/
structure PParams where
  tag : Nat
  container : PContainer
  deriving DecidableEq, Repr

/-- The request dictionary handed to `__call__`, with an identity tag;
`id` is absent until `_send` inserts it. -/
structure PReq where
  tag : Nat
  method : Bytes
  params : PParams
  jsonrpc : Bytes
  id : Option Int
  deriving DecidableEq, Repr

/-- `Request.pack` (lines 66-83): assign the packed value back into
`req['params'][k]` for every key; the container object itself is reused
(same tag), with each entry replaced by `packVal`. -/
def packContainer : PContainer → PContainer
  | .pos l => .pos (l.map packVal)
  | .named l => .named (l.map fun kv => (kv.1, packVal kv.2))

/-- `_send` lines 135-137: insert `json_data['id'] = randint(...)` into
the caller's dictionary (modelled by the `rid` the environment drew),
then `Request(json_data)` packs `params` in place. Both objects keep
their identity. -/
def sendPrep (r : PReq) (rid : Int) : PReq :=
  { r with
    id := some rid,
    params := { tag := r.params.tag, container := packContainer r.params.container } }

/-- C10: issuing a call mutates its input. For every request and drawn
id, the request dictionary handed to `__call__` gains the `id` key, the
caller's params container is updated in place (the same objects, per
identity tag), every numpy-array, image, or bytes entry is replaced by
the base64 text of its serialized bytes, and every other entry, the
names of named parameters, and the remaining keys of the request are
left unchanged. -/
theorem send_mutates_request_in_place (r : PReq) (rid : Int) :
    (sendPrep r rid).tag = r.tag ∧
    (sendPrep r rid).params.tag = r.params.tag ∧
    (sendPrep r rid).method = r.method ∧
    (sendPrep r rid).jsonrpc = r.jsonrpc ∧
    (sendPrep r rid).id = some rid ∧
    (∀ l, r.params.container = .pos l →
      (sendPrep r rid).params.container = .pos (l.map packVal)) ∧
    (∀ l, r.params.container = .named l →
      (sendPrep r rid).params.container = .named (l.map fun kv => (kv.1, packVal kv.2)) ∧
      ((l.map fun kv => (kv.1, packVal kv.2)).map fun kv => kv.1) =
        (l.map fun kv => kv.1)) ∧
    (∀ s, packVal (.npArr s) = .plain (.str (b64encode s))) ∧
    (∀ s, packVal (.img s) = .plain (.str (b64encode s))) ∧
    (∀ b, packVal (.raw b) = .plain (.str (b64encode b))) ∧
    (∀ v, packVal (.plain v) = .plain v) := by
  refine ⟨rfl, rfl, rfl, rfl, rfl, ?_, ?_, fun s => rfl, fun s => rfl,
    fun b => rfl, fun v => rfl⟩
  · intro l hl
    simp [sendPrep, packContainer, hl]
  · intro l hl
    refine ⟨by simp [sendPrep, packContainer, hl], ?_⟩
    simp

/-- Witness for C10 at a concrete input: a request with a bytes entry
[255] and a plain number entry gains id 9, the bytes entry becomes the
base64 text "/w==" ([47, 119, 61, 61]), and the number is untouched. -/
theorem send_mutates_request_in_place_witness :
    (sendPrep ⟨1, strB "echo", ⟨2, .pos [.raw [255], .plain (.num 4)]⟩,
        strB "2.0", none⟩ 9).id = some 9 ∧
    (sendPrep ⟨1, strB "echo", ⟨2, .pos [.raw [255], .plain (.num 4)]⟩,
        strB "2.0", none⟩ 9).params.container =
      .pos [.plain (.str [47, 119, 61, 61]), .plain (.num 4)] := by
  have h := send_mutates_request_in_place
    ⟨1, strB "echo", ⟨2, .pos [.raw [255], .plain (.num 4)]⟩, strB "2.0", none⟩ 9
  refine ⟨h.2.2.2.2.1, ?_⟩
  have h2 := h.2.2.2.2.2.1 [.raw [255], .plain (.num 4)] rfl
  rw [h2]
  decide
